import Mathlib

/-!
Verification of the hybrid retrieval / fusion core of the housing-lease RAG
module (`final_module_cld.py`).  The Python source is shallowly embedded:

* Python `float` arithmetic is modelled by exact rationals (`ℚ`);
  `math.log` is an opaque function parameter `log : ℚ → ℚ`.
* Python dictionaries are insertion-ordered association lists
  (`List (String × v)`), updated with `assocSet` (update keeps position,
  new keys are appended) — exactly the CPython `dict` ordering contract.
* Python `set` iteration order depends on the process-wide string hash
  seed and is therefore not a function of the program input; every place
  the source iterates over a `set` (the fusion methods iterate
  `set(dense) | set(sparse)`) takes the enumeration order as an explicit
  parameter (`setOrder`).
* Python's stable `sorted(..., key=f)` is modelled by a stable insertion
  sort `stableSortBy lt` where `lt a b` means "a must come strictly
  before b"; ties keep input order, as CPython guarantees.
* `hash(str)` (used only to build dedup keys for documents without id
  metadata) is modelled by the identity injection on the content string:
  only equality of the derived keys is ever used.
* External collaborators (vector search, rerank, case full-text search)
  are functions returning `Except Err _`; a raised exception is `.error`.
-/

attribute [local semireducible] Rat.inv Rat.mul Rat.add Rat.sub Rat.ofScientific

namespace RagSpec

/-- A Python scalar metadata value: string, int, bool, or float
(floats modelled as exact rationals). -/
inductive MetaVal where
  | str (s : String)
  | int (n : Int)
  | bool (b : Bool)
  | rat (q : ℚ)
deriving DecidableEq, Repr

/-- `langchain_core.documents.Document`: page content plus a metadata dict. -/
structure Document where
  page_content : String
  metadata : List (String × MetaVal)
deriving DecidableEq, Repr

/-- Python truthiness of a metadata value (`if v:`). -/
def metaTruthy : MetaVal → Bool
  | .str s => s ≠ ""
  | .int n => n ≠ 0
  | .bool b => b
  | .rat q => q ≠ 0

/-- Python `str(v)` for metadata values.  `str` of a float is not modelled
faithfully (no claim interpolates a float into a string). -/
def metaValStr : MetaVal → String
  | .str s => s
  | .int n => toString n
  | .bool b => if b then "True" else "False"
  | .rat q => toString q

/-- Digits-only string to `Nat` (helper for `parseIntStr`). -/
def digitsToNat? (cs : List Char) : Option Nat :=
  if cs = [] then none
  else if cs.all Char.isDigit then
    some (cs.foldl (fun a c => 10 * a + (c.toNat - 48)) 0)
  else none

/-- Python `int(s)` on a string: optional surrounding whitespace, optional
sign, decimal digits (digit-group underscores are not modelled). -/
def parseIntStr (s : String) : Option Int :=
  match s.trim.toList with
  | '-' :: cs => (digitsToNat? cs).map (fun n => -(n : Int))
  | '+' :: cs => (digitsToNat? cs).map (fun n => (n : Int))
  | cs => (digitsToNat? cs).map (fun n => (n : Int))

/-- `_safe_int(x, default)`: `int(x)` with any exception turned into the
default.  `int()` of a float truncates toward zero. -/
def safeInt (default : Int) : MetaVal → Int
  | .int n => n
  | .bool b => if b then 1 else 0
  | .rat q => if q < 0 then -((-q).floor) else q.floor
  | .str s => (parseIntStr s).getD default

/-- `_truncate(text, max_chars)`: unchanged when short enough, otherwise
`text[: max_chars - 1] + "…"` (for `max_chars = 0` the Python slice
`text[:-1]` drops the last character). -/
def truncateStr (text : String) (maxChars : Nat) : String :=
  if text = "" then ""
  else if text.length ≤ maxChars then text
  else if maxChars = 0 then (text.toList.dropLast).asString ++ "…"
  else (text.toList.take (maxChars - 1)).asString ++ "…"

/-- Python `str.strip()`: drop leading and trailing whitespace
(structurally recursive so that it evaluates; `String.trim` would be
extensionally the same but does not reduce). -/
def pyStrip (s : String) : String :=
  ((s.toList.dropWhile Char.isWhitespace).reverse.dropWhile Char.isWhitespace).reverse.asString

/-- CPython `dict` assignment `m[k] = v`: an existing key keeps its
position, a new key is appended at the end. -/
def assocSet {α : Type} (m : List (String × α)) (k : String) (v : α) : List (String × α) :=
  if m.any (fun p => p.1 = k) then
    m.map (fun p => if p.1 = k then (k, v) else p)
  else m ++ [(k, v)]

/-- Key a Python dict lookup `m.get(k)`. -/
def assocGet {α : Type} (m : List (String × α)) (k : String) : Option α :=
  m.lookup k

/-- The per-document dedup key used by `_dedupe_docs`: the first truthy
configured metadata field as `"field:value"`, else `"content:hash"`. -/
def dedupeKey (keyFields : List String) (d : Document) : String :=
  match keyFields.findSome? (fun f =>
      match d.metadata.lookup f with
      | some v => if metaTruthy v then some (f ++ ":" ++ metaValStr v) else none
      | none => none) with
  | some k => k
  | none => "content:" ++ d.page_content

/-- `RAGPipeline._get_doc_id`: same field walk as `_dedupe_docs` but with a
`"hash:"`-prefixed content fallback. -/
def getDocId (keyFields : List String) (d : Document) : String :=
  match keyFields.findSome? (fun f =>
      match d.metadata.lookup f with
      | some v => if metaTruthy v then some (f ++ ":" ++ metaValStr v) else none
      | none => none) with
  | some k => k
  | none => "hash:" ++ d.page_content

/-- Recursion for `_dedupe_docs`, carrying the `seen` key set. -/
def dedupeDocsAux (keyFields : List String) : List Document → List String → List Document
  | [], _ => []
  | d :: ds, seen =>
    let k := dedupeKey keyFields d
    if k ∈ seen then dedupeDocsAux keyFields ds seen
    else d :: dedupeDocsAux keyFields ds (k :: seen)

/-- `_dedupe_docs(docs, key_fields)`: keep the first document for each key. -/
def dedupeDocs (keyFields : List String) (docs : List Document) : List Document :=
  dedupeDocsAux keyFields docs []

/-- Stable insertion: `x` is placed before the first element it must
strictly precede; on ties it stays after earlier elements. -/
def insertSorted {α : Type} (lt : α → α → Bool) (x : α) : List α → List α
  | [] => [x]
  | y :: ys => if lt x y then x :: y :: ys else y :: insertSorted lt x ys

/-- Python's stable `sorted` for a strict comparator `lt` ("must come
strictly before"): elements are inserted in input order, ties keep input
order. -/
def stableSortBy {α : Type} (lt : α → α → Bool) (l : List α) : List α :=
  l.foldl (fun acc x => insertSorted lt x acc) []

/-- `_bm25_scores_builtin(query_tokens, docs_tokens, k1=…, b=…)`.
`math.log` is the opaque parameter `log`; all float arithmetic is exact
rational arithmetic.  The `idf` dict built over corpus tokens together
with `idf.get(term, 0.0)` is modelled by returning `0` when the document
frequency is `0` (exactly the terms absent from that dict). -/
def bm25ScoresBuiltin (log : ℚ → ℚ) (queryTokens : List String)
    (docsTokens : List (List String)) (k1 b : ℚ) : List ℚ :=
  let N := docsTokens.length
  if N = 0 then []
  else if queryTokens = [] then List.replicate N 0
  else
    let avgdl0 : ℚ := ((docsTokens.map List.length).sum : ℚ) / (N : ℚ)
    let avgdl : ℚ := if avgdl0 ≤ 0 then 1 else avgdl0
    let dfOf : String → Nat := fun t => (docsTokens.filter (fun d => t ∈ d)).length
    let idfOf : String → ℚ := fun t =>
      if dfOf t = 0 then 0
      else log (1 + ((N : ℚ) - (dfOf t : ℚ) + 1/2) / ((dfOf t : ℚ) + 1/2))
    let qterms := queryTokens.eraseDups
    docsTokens.map (fun toks =>
      let dl : ℚ := (toks.length : ℚ)
      let norm : ℚ := (1 - b) + b * (dl / avgdl)
      qterms.foldl (fun acc term =>
        let f : Nat := toks.count term
        if f = 0 then acc
        else
          let denom : ℚ := (f : ℚ) + k1 * norm
          if denom = 0 then acc
          else acc + idfOf term * ((f : ℚ) * (k1 + 1) / denom)
                   * (1 + (1/10) * ((queryTokens.count term : ℚ) - 1))) 0)

namespace ScoreFusion

/-- Score of one document under `ScoreFusion.reciprocal_rank_fusion`: each
side on which the document is present contributes `w / (k + rank)`, an
absent side contributes `0`. -/
def rrfScore (denseRanks sparseRanks : List (String × Int)) (k : Nat)
    (wDense wSparse : ℚ) (docId : String) : ℚ :=
  (match denseRanks.lookup docId with
   | some r => wDense / ((k : ℚ) + (r : ℚ))
   | none => 0) +
  (match sparseRanks.lookup docId with
   | some r => wSparse / ((k : ℚ) + (r : ℚ))
   | none => 0)

/-- `ScoreFusion.reciprocal_rank_fusion`; `allDocs` is the iteration order
of the Python set `set(dense_ranks) | set(sparse_ranks)` (hash-dependent,
hence an explicit parameter). -/
def reciprocalRankFusion (allDocs : List String)
    (denseRanks sparseRanks : List (String × Int)) (k : Nat)
    (wDense wSparse : ℚ) : List (String × ℚ) :=
  allDocs.map (fun docId => (docId, rrfScore denseRanks sparseRanks k wDense wSparse docId))

/-- `ScoreFusion._normalize`: min-max normalization; a constant map
normalizes to all `1.0`, an empty map stays empty. -/
def minMaxNormalize (scores : List (String × ℚ)) : List (String × ℚ) :=
  match scores with
  | [] => []
  | p :: ps =>
    let mn := ps.foldl (fun m q => min m q.2) p.2
    let mx := ps.foldl (fun m q => max m q.2) p.2
    if mx = mn then scores.map (fun q => (q.1, (1 : ℚ)))
    else scores.map (fun q => (q.1, (q.2 - mn) / (mx - mn)))

/-- `ScoreFusion.weighted_sum`: `alpha·dense + (1-alpha)·sparse` after
optional min-max normalization; missing entries contribute `0.0`. -/
def weightedSum (allDocs : List String) (denseScores sparseScores : List (String × ℚ))
    (alpha : ℚ) (normalize : Bool) : List (String × ℚ) :=
  let d := if normalize then minMaxNormalize denseScores else denseScores
  let s := if normalize then minMaxNormalize sparseScores else sparseScores
  allDocs.map (fun docId =>
    (docId, alpha * ((d.lookup docId).getD 0) + (1 - alpha) * ((s.lookup docId).getD 0)))

/-- The `to_unit` helper of `ScoreFusion.rank_sum`:
`1 - (r - 1) / (n - 1)` over `n` total documents. -/
def toUnit (n : Nat) (r : Int) : ℚ :=
  1 - ((r : ℚ) - 1) / ((n : ℚ) - 1)

/-- `ScoreFusion.rank_sum`: ranks are converted to unit values and
weight-summed; a document absent from one side gets the default rank `n`.
`allDocs` is the set-iteration order as in `reciprocalRankFusion`. -/
def rankSum (allDocs : List String) (denseRanks sparseRanks : List (String × Int))
    (wDense wSparse : ℚ) : List (String × ℚ) :=
  let n := allDocs.length
  if n ≤ 1 then allDocs.map (fun docId => (docId, wDense + wSparse))
  else
    allDocs.map (fun docId =>
      let dRank := (denseRanks.lookup docId).getD (n : Int)
      let sRank := (sparseRanks.lookup docId).getD (n : Int)
      (docId, wDense * toUnit n dRank + wSparse * toUnit n sRank))

end ScoreFusion

/-- The `RAGConfig` dataclass with its default field values
(floats as exact rationals, e.g. `0.1 = 1/10`). -/
structure RAGConfig where
  normalize_model : String := "solar-pro2"
  normalize_temperature : ℚ := 0
  generation_model : String := "gpt-4o-mini"
  generation_temperature : ℚ := 1/10
  fallback_model : String := "exaone3.5:2.4b"
  embedding_model : String := "solar-embedding-1-large-passage"
  k_law : Nat := 5
  k_rule : Nat := 5
  k_case : Nat := 3
  search_multiplier : Nat := 2
  enable_hybrid : Bool := true
  hybrid_method : String := "rrf"
  hybrid_alpha : ℚ := 1/2
  rrf_k : Nat := 60
  hybrid_dense_weight : ℚ := 3/5
  hybrid_sparse_weight : ℚ := 2/5
  bm25_algorithm : String := "builtin"
  bm25_k1 : ℚ := 3/2
  bm25_b : ℚ := 3/4
  bm25_max_doc_chars : Nat := 4000
  use_kiwi_tokenizer : Bool := true
  enable_rerank : Bool := true
  rerank_threshold : ℚ := 1/5
  rerank_model : String := "rerank-multilingual-v3.0"
  rerank_max_documents : Nat := 80
  rerank_doc_max_chars : Nat := 2000
  case_candidate_k : Nat := 40
  case_expand_top_n : Option Nat := none
  case_context_top_k : Nat := 50
  dedupe_key_fields : List String := ["chunk_id", "id"]
deriving DecidableEq, Repr

/-- `RAGConfig.__post_init__`: the construction-time validation; `.error`
is a raised `ValueError`, `.ok` is a successfully constructed config. -/
def ragConfigValidate (cfg : RAGConfig) : Except String RAGConfig :=
  if ¬(0 ≤ cfg.generation_temperature ∧ cfg.generation_temperature ≤ 2) then
    .error "generation_temperature는 0~2 사이여야 합니다."
  else if ¬(0 ≤ cfg.rerank_threshold ∧ cfg.rerank_threshold ≤ 1) then
    .error "rerank_threshold는 0~1 사이여야 합니다."
  else if ¬(cfg.hybrid_method ∈ (["rrf", "weighted", "rank_sum"] : List String)) then
    .error "hybrid_method는 'rrf', 'weighted', 'rank_sum' 중 하나여야 합니다."
  else .ok cfg

/-- `Except.isOk` as a plain definition. -/
def exOk {ε α : Type} : Except ε α → Bool
  | .ok _ => true
  | .error _ => false

/-- Priority of a document: `_safe_int(md.get("priority", 99), 99)`. -/
def priorityOf (d : Document) : Int :=
  safeInt 99 ((d.metadata.lookup "priority").getD (.int 99))

/-- One rendered entry of `format_context_with_hierarchy`:
`f"[{src}] {title}\n{content}".strip()` with
`src = md.get("src_title", md.get("__source_index", "자료"))` and
`title = md.get("title", "")`. -/
def entryOf (d : Document) : String :=
  let src : MetaVal :=
    match d.metadata.lookup "src_title" with
    | some v => v
    | none => (d.metadata.lookup "__source_index").getD (.str "자료")
  let title : MetaVal := (d.metadata.lookup "title").getD (.str "")
  pyStrip ("[" ++ metaValStr src ++ "] " ++ metaValStr title ++ "\n" ++ d.page_content)

/-- The three tier lists built by the loop of
`format_context_with_hierarchy`, in input order. -/
def contextSections : List Document → List String × List String × List String
  | [] => ([], [], [])
  | d :: ds =>
    let s := contextSections ds
    let p := priorityOf d
    if p ∈ ([1, 2, 4, 5] : List Int) then (entryOf d :: s.1, s.2.1, s.2.2)
    else if p ∈ ([3, 6, 7, 8, 11] : List Int) then (s.1, entryOf d :: s.2.1, s.2.2)
    else (s.1, s.2.1, entryOf d :: s.2.2)

/-- `RAGPipeline.format_context_with_hierarchy`: join the non-empty tiers
under their headers; empty tiers are omitted entirely. -/
def formatContextWithHierarchy (docs : List Document) : String :=
  let s := contextSections docs
  let parts : List String :=
    (if s.1 = [] then []
     else ["## [SECTION 1: 핵심 법령 (최우선 법적 근거)]\n" ++ String.intercalate "\n\n" s.1]) ++
    (if s.2.1 = [] then []
     else ["## [SECTION 2: 관련 규정 및 절차 (세부 기준)]\n" ++ String.intercalate "\n\n" s.2.1]) ++
    (if s.2.2 = [] then []
     else ["## [SECTION 3: 판례 및 해석 사례 (적용 예시)]\n" ++ String.intercalate "\n\n" s.2.2])
  pyStrip (String.intercalate "\n\n" parts)

/-- One of the three Pinecone indices of the pipeline. -/
inductive Index where
  | law
  | rule
  | caseIx
deriving DecidableEq, Repr

/-- An exception escaping a call: either an external-service exception
(`ext`, carrying a message) or a Python `IndexError` from list indexing. -/
inductive Err where
  | ext (msg : String)
  | index
deriving DecidableEq, Repr

/-- The pipeline's environment: every unmodellable or external ingredient
of `RAGPipeline`, made explicit.

* `log` — `math.log` on floats;
* `tok` — the tokenizer chosen at construction (Kiwi when available and
  configured, else `SimpleTokenizer`);
* `setOrder` — CPython's hash-dependent iteration order for the
  `set(dense) | set(sparse)` union built by the fusion methods: it is
  applied to the first-occurrence enumeration of the union;
* `rankBm25Available` / `bm25Ext` — the optional `rank_bm25` backend of
  `BM25Scorer` (arguments: `k1`, `b`, query tokens, corpus tokens);
* `searchWithScore` / `searchPlain` — `similarity_search_with_score` and
  `similarity_search` on a store; `.error` is a raised exception;
* `caseSearch` — `case_store.similarity_search` with the fixed
  "판례 전문 검색" query and a `case_no` equality filter (arguments:
  case number, `k`);
* `rerank` — the Cohere client call of `_rerank` (arguments: query,
  truncated document texts); an absent client is modelled as `.error`,
  which `_rerank` also converts to `None`. -/
structure Externals where
  log : ℚ → ℚ
  tok : String → List String
  setOrder : List String → List String
  rankBm25Available : Bool
  bm25Ext : ℚ → ℚ → List String → List (List String) → List ℚ
  searchWithScore : Index → String → Nat → Except Err (List (Document × ℚ))
  searchPlain : Index → String → Nat → Except Err (List Document)
  caseSearch : String → Nat → Except Err (List Document)
  rerank : String → List String → Except Err (List (Nat × ℚ))

/-- `RAGPipeline._attach_source`: inject `__source_index` into every
document's metadata. -/
def attachSource (docs : List Document) (source : String) : List Document :=
  docs.map (fun d => { d with metadata := assocSet d.metadata "__source_index" (.str source) })

/-- `RAGPipeline._search_with_dense_rank`: try the scored search and
annotate `__dense_score` and `__dense_rank`; on exception fall back to the
plain search (whose own exception is NOT caught and escapes). -/
def searchWithDenseRank (E : Externals) (ix : Index) (query : String) (k : Nat) :
    Except Err (List Document) :=
  match E.searchWithScore ix query k with
  | .ok pairs =>
    .ok (pairs.enum.map (fun p =>
      { p.2.1 with
        metadata := assocSet (assocSet p.2.1.metadata "__dense_score" (.rat p.2.2))
          "__dense_rank" (.int (p.1 + 1)) }))
  | .error _ =>
    match E.searchPlain ix query k with
    | .ok docs =>
      .ok (docs.enum.map (fun p =>
        { p.2 with metadata := assocSet p.2.metadata "__dense_rank" (.int (p.1 + 1)) }))
    | .error e => .error e

/-- The `__dense_rank` read in `_hybrid_fusion`:
`d.metadata.get("__dense_rank", i)` (an integer when the pipeline set it;
the positional fallback `i` otherwise). -/
def denseRankOf (d : Document) (i : Int) : Int :=
  match d.metadata.lookup "__dense_rank" with
  | some (.int n) => n
  | _ => i

/-- Score lookup in a fused assoc list (all keys are present by
construction; the default `0` is never hit on pipeline inputs). -/
def lookupQ (m : List (String × ℚ)) (k : String) : ℚ :=
  (m.lookup k).getD 0

/-- First-occurrence enumeration of `set(d) | set(s)` before the
hash-dependent `setOrder` permutation is applied. -/
def unionKeys {α β : Type} (d : List (String × α)) (s : List (String × β)) : List String :=
  (d.map Prod.fst ++ s.map Prod.fst).eraseDups

/-- The reorder loop at the end of `_hybrid_fusion`:
`for rank, doc_id in enumerate(sorted_ids, start=1)` — the rank counter
advances on every id, documents get `__hybrid_score` and `__hybrid_rank`. -/
def reorderFused (docMap : List (String × Document)) (fused : List (String × ℚ)) :
    List String → Nat → List Document
  | [], _ => []
  | docId :: ids, rank =>
    match docMap.lookup docId with
    | some d =>
      { d with
        metadata := assocSet (assocSet d.metadata "__hybrid_score" (.rat (lookupQ fused docId)))
          "__hybrid_rank" (.int (rank : Int)) } :: reorderFused docMap fused ids (rank + 1)
    | none => reorderFused docMap fused ids (rank + 1)

/-- The full reorder step of `_hybrid_fusion`:
`sorted_ids = sorted(fused.keys(), key=lambda x: fused[x], reverse=True)`
(stable over the key order of the fused dict) followed by the
enumerate-and-annotate loop. -/
def fusedReorder (docMap : List (String × Document)) (fused : List (String × ℚ)) :
    List Document :=
  reorderFused docMap fused
    (stableSortBy (fun a b => decide (lookupQ fused b < lookupQ fused a)) (fused.map Prod.fst)) 1

/-- `RAGPipeline._hybrid_fusion`: dedupe, build dense ranks/scores, score
the truncated corpus with BM25, rank the sparse scores, fuse by the
configured method, and reorder by fused score (`sorted` is stable over the
set-iteration order of the fused dict's keys).  The source's extra
`not self._tokenizer` guard coincides with `not enable_hybrid`, since
`_init_tokenizer` installs a tokenizer exactly when hybrid is enabled. -/
def hybridFusion (E : Externals) (cfg : RAGConfig) (query : String)
    (docs0 : List Document) : List Document :=
  if cfg.enable_hybrid = false ∨ docs0 = [] then docs0
  else
    let docs := dedupeDocs cfg.dedupe_key_fields docs0
    if docs.length ≤ 1 then docs
    else
      let keyOf := getDocId cfg.dedupe_key_fields
      let denseRanks : List (String × Int) :=
        docs.enum.foldl (fun m p => assocSet m (keyOf p.2) (denseRankOf p.2 ((p.1 : Int) + 1))) []
      let denseScores : List (String × ℚ) :=
        denseRanks.foldl (fun m p => assocSet m p.1 (1 / (p.2 : ℚ))) []
      let corpusTokens : List (List String) :=
        docs.map (fun d => E.tok (truncateStr d.page_content cfg.bm25_max_doc_chars))
      let queryTokens := E.tok query
      let bm25List : List ℚ :=
        if cfg.bm25_algorithm = "builtin" ∨ E.rankBm25Available = false then
          bm25ScoresBuiltin E.log queryTokens corpusTokens cfg.bm25_k1 cfg.bm25_b
        else E.bm25Ext cfg.bm25_k1 cfg.bm25_b queryTokens corpusTokens
      let bm25Scores : List (String × ℚ) :=
        (docs.zip bm25List).foldl (fun m p => assocSet m (keyOf p.1) p.2) []
      let sortedBm25 := stableSortBy (fun a b => decide (b.2 < a.2)) bm25Scores
      let sparseRanks : List (String × Int) :=
        sortedBm25.enum.foldl (fun m p => assocSet m p.2.1 ((p.1 : Int) + 1)) []
      let fused : List (String × ℚ) :=
        if cfg.hybrid_method = "rrf" then
          ScoreFusion.reciprocalRankFusion (E.setOrder (unionKeys denseRanks sparseRanks))
            denseRanks sparseRanks cfg.rrf_k cfg.hybrid_dense_weight cfg.hybrid_sparse_weight
        else if cfg.hybrid_method = "weighted" then
          ScoreFusion.weightedSum (E.setOrder (unionKeys denseScores bm25Scores))
            denseScores bm25Scores cfg.hybrid_alpha true
        else
          ScoreFusion.rankSum (E.setOrder (unionKeys denseRanks sparseRanks))
            denseRanks sparseRanks cfg.hybrid_dense_weight cfg.hybrid_sparse_weight
      let docMap : List (String × Document) :=
        docs.foldl (fun m d => assocSet m (keyOf d) d) []
      fusedReorder docMap fused

/-- `RAGPipeline._cap_for_rerank`: dedupe each index's list, take all
statutes+regulations up to the budget, fill the rest with case chunks. -/
def capForRerank (cfg : RAGConfig) (law rule cs : List Document) : List Document :=
  let law := dedupeDocs cfg.dedupe_key_fields law
  let rule := dedupeDocs cfg.dedupe_key_fields rule
  let cs := dedupeDocs cfg.dedupe_key_fields cs
  let base := law ++ rule
  if cfg.rerank_max_documents ≤ base.length then base.take cfg.rerank_max_documents
  else base ++ cs.take (cfg.rerank_max_documents - base.length)

/-- Python `combined[i]` over a list of rerank results: an out-of-range
index raises `IndexError`. -/
def pickByIndex (combined : List Document) : List (Nat × ℚ) → Except Err (List Document)
  | [] => .ok []
  | p :: ps =>
    match combined[p.1]? with
    | some d => (pickByIndex combined ps).map (fun rest => d :: rest)
    | none => .error .index

/-- The rerank selection step of `triple_hybrid_retrieval`: `if ranked:`
(both `None` and `[]` are falsy) keeps the pre-rerank set; otherwise keep
the results at/above the threshold, falling back to the first
`min(k_law + k_rule + k_case, len(ranked))` results when none clears it. -/
def selectDocs (cfg : RAGConfig) (combined : List Document)
    (ranked : Option (List (Nat × ℚ))) : Except Err (List Document) :=
  match ranked with
  | some r =>
    if r = [] then .ok combined
    else
      let filtered := r.filter (fun p => decide (cfg.rerank_threshold ≤ p.2))
      let filtered :=
        if filtered = [] then r.take (min (cfg.k_law + cfg.k_rule + cfg.k_case) r.length)
        else filtered
      pickByIndex combined filtered
  | none => .ok combined

/-- Sort key for case chunks: `str(x.metadata.get("chunk_id", ""))`. -/
def chunkKey (d : Document) : String :=
  metaValStr ((d.metadata.lookup "chunk_id").getD (.str ""))

/-- `RAGPipeline.get_full_case_context`: fetch the chunks of one case,
sort them by `chunk_id`, dedupe, join with newlines and strip; any
exception degrades to the empty string. -/
def getFullCaseContext (E : Externals) (cfg : RAGConfig) (caseNo : String) : String :=
  match E.caseSearch caseNo cfg.case_context_top_k with
  | .error _ => ""
  | .ok results =>
    let sortedDocs := stableSortBy (fun a b => decide (chunkKey a < chunkKey b)) results
    let uniqueDocs := dedupeDocs cfg.dedupe_key_fields sortedDocs
    pyStrip (String.intercalate "\n" (uniqueDocs.map Document.page_content))

/-- The truthy `case_no` of a document, if any (`if not case_no: continue`
skips missing and falsy values). -/
def truthyCaseNo (d : Document) : Option MetaVal :=
  match d.metadata.lookup "case_no" with
  | some v => if metaTruthy v then some v else none
  | none => none

/-- `top_n = cfg.case_expand_top_n or cfg.k_case` (Python `or`:
`None` and `0` both fall back to `k_case`). -/
def topNOf (cfg : RAGConfig) : Nat :=
  match cfg.case_expand_top_n with
  | some n => if n = 0 then cfg.k_case else n
  | none => cfg.k_case

/-- The case-selection loop of `triple_hybrid_retrieval`: walk ranked case
chunks, skip missing or already-seen `case_no`, stop once `top_n` distinct
cases are chosen (the break fires after appending). -/
def chooseCasesAux (topN : Nat) : List Document → List MetaVal → Nat → List Document
  | [], _, _ => []
  | d :: ds, seen, cnt =>
    match truthyCaseNo d with
    | some v =>
      if v ∈ seen then chooseCasesAux topN ds seen cnt
      else if topN ≤ cnt + 1 then [d]
      else d :: chooseCasesAux topN ds (v :: seen) (cnt + 1)
    | none => chooseCasesAux topN ds seen cnt

/-- Entry point of the case-selection loop. -/
def chooseCases (topN : Nat) (caseRanked : List Document) : List Document :=
  chooseCasesAux topN caseRanked [] 0

/-- `title = d.metadata.get("title") or d.metadata.get("case_name") or
str(case_no)` (Python `or` keeps the first truthy value). -/
def orMeta (a : Option MetaVal) (b : MetaVal) : MetaVal :=
  match a with
  | some v => if metaTruthy v then v else b
  | none => b

/-- The title used for an expanded case document. -/
def caseTitle (d : Document) (v : MetaVal) : MetaVal :=
  orMeta (d.metadata.lookup "title")
    (orMeta (d.metadata.lookup "case_name") (.str (metaValStr v)))

/-- The expansion loop of `triple_hybrid_retrieval`: fetch the full text
of each chosen case; an empty fetch keeps the original chunk, otherwise
the chunk is replaced by a `"[판례 전문: {title}]\n{full_text}"` document
whose metadata copy carries `__expanded = True`. -/
def expandCases (E : Externals) (cfg : RAGConfig) : List Document → List Document
  | [] => []
  | d :: ds =>
    match truthyCaseNo d with
    | none => expandCases E cfg ds
    | some v =>
      let fullText := getFullCaseContext E cfg (metaValStr v)
      if fullText = "" then d :: expandCases E cfg ds
      else
        { page_content := "[판례 전문: " ++ metaValStr (caseTitle d v) ++ "]\n" ++ fullText,
          metadata := assocSet d.metadata "__expanded" (.bool true) } :: expandCases E cfg ds

/-- The two-stage case expansion (selection then expansion). -/
def caseExpansion (E : Externals) (cfg : RAGConfig) (caseRanked : List Document) :
    List Document :=
  expandCases E cfg (chooseCases (topNOf cfg) caseRanked)

/-- Source-index test `d.metadata.get("__source_index") == src`. -/
def hasSource (d : Document) (src : String) : Bool :=
  d.metadata.lookup "__source_index" = some (.str src)

/-- Steps 5-7 of `triple_hybrid_retrieval` (after document selection):
dedupe, split by source, cap statutes/regulations, expand cases and cap,
then stable-sort ascending by integer priority (default 99). -/
def finishStage (E : Externals) (cfg : RAGConfig) (selected0 : List Document) :
    List Document :=
  let selected := dedupeDocs cfg.dedupe_key_fields selected0
  let finalLaw := (selected.filter (fun d => hasSource d "law")).take cfg.k_law
  let finalRule := (selected.filter (fun d => hasSource d "rule")).take cfg.k_rule
  let finalCase := (caseExpansion E cfg (selected.filter (fun d => hasSource d "case"))).take cfg.k_case
  stableSortBy (fun a b => decide (priorityOf a < priorityOf b)) (finalLaw ++ finalRule ++ finalCase)

/-- Step 1 of `triple_hybrid_retrieval`: the three dense fetches with
their source tags; a search exception escapes (see
`searchWithDenseRank`). -/
def searchStage (E : Externals) (cfg : RAGConfig) (query : String) :
    Except Err (List Document × List Document × List Document) := do
  let law ← searchWithDenseRank E .law query (cfg.k_law * cfg.search_multiplier)
  let rule ← searchWithDenseRank E .rule query (cfg.k_rule * cfg.search_multiplier)
  let cs ← searchWithDenseRank E .caseIx query cfg.case_candidate_k
  .ok (attachSource law "law", attachSource rule "rule", attachSource cs "case")

/-- Step 2 of `triple_hybrid_retrieval`: per-index hybrid fusion when
enabled. -/
def fusionStage (E : Externals) (cfg : RAGConfig) (query : String)
    (t : List Document × List Document × List Document) :
    List Document × List Document × List Document :=
  if cfg.enable_hybrid then
    (hybridFusion E cfg query t.1, hybridFusion E cfg query t.2.1, hybridFusion E cfg query t.2.2)
  else t

/-- `RAGPipeline.triple_hybrid_retrieval`: dense fetch, fusion, capping,
rerank (whose own exceptions `_rerank` converts to `None`), selection,
dedupe/split/expansion, priority sort. -/
def tripleHybridRetrieval (E : Externals) (cfg : RAGConfig) (query : String) :
    Except Err (List Document) := do
  let t ← searchStage E cfg query
  let t := fusionStage E cfg query t
  let combined := capForRerank cfg t.1 t.2.1 t.2.2
  let texts := combined.map (fun d => truncateStr d.page_content cfg.rerank_doc_max_chars)
  let ranked : Option (List (Nat × ℚ)) :=
    if cfg.enable_rerank then (E.rerank query texts).toOption else none
  let selected ← selectDocs cfg combined ranked
  .ok (finishStage E cfg selected)

/-- The `__hybrid_score` annotation stored by the reorder loop of
`_hybrid_fusion` (`0` when absent or not a float). -/
def hybridScoreOf (d : Document) : ℚ :=
  match d.metadata.lookup "__hybrid_score" with
  | some (.rat q) => q
  | _ => 0

/-- A default document (used only as the junk value of `List.getD`). -/
def emptyDoc : Document := { page_content := "", metadata := [] }

/-! ### Concrete fixtures used by counterexamples and witnesses -/

/-- Fixture document A: id `"A"`, dense rank 2. -/
def dA : Document :=
  { page_content := "xA", metadata := [("id", .str "A"), ("__dense_rank", .int 2)] }

/-- Fixture document B: id `"B"`, dense rank 1. -/
def dB : Document :=
  { page_content := "yB", metadata := [("id", .str "B"), ("__dense_rank", .int 1)] }

/-- A valid configuration with equal fusion weights (everything else
default). -/
def cfg1 : RAGConfig := { hybrid_dense_weight := 1, hybrid_sparse_weight := 1 }

/-- An environment whose hash seed enumerates doc-id sets in reverse and
whose external services all raise. -/
def Erev : Externals :=
  { log := fun q => q
    tok := fun _ => []
    setOrder := fun l => l.reverse
    rankBm25Available := false
    bm25Ext := fun _ _ _ _ => []
    searchWithScore := fun _ _ _ => .error (.ext "no")
    searchPlain := fun _ _ _ => .error (.ext "no")
    caseSearch := fun _ _ => .error (.ext "no")
    rerank := fun _ _ => .error (.ext "no") }

/-- Same as `Erev` but with the identity set-iteration order (a second
possible hash seed for the same program input). -/
def Eid : Externals := { Erev with setOrder := fun l => l }

/-- Same as `Erev` but with a working plain (unscored) vector search. -/
def Efallback : Externals := { Erev with searchPlain := fun _ _ _ => .ok [] }

/-- Same as `Erev` but with a working scored vector search; rerank and
case fetch still raise. -/
def EsearchOk : Externals := { Erev with searchWithScore := fun _ _ _ => .ok [] }

/-- Specification measure for the case-selection loop: how many documents
of the list carry a truthy `case_no` not yet in `seen`, counting each
distinct value once. -/
def newDistinct : List Document → List MetaVal → Nat
  | [], _ => 0
  | d :: ds, seen =>
    match truthyCaseNo d with
    | some v => if v ∈ seen then newDistinct ds seen else 1 + newDistinct ds (v :: seen)
    | none => newDistinct ds seen

/-- Fixture document for the rerank-fallback witness. -/
def docW : Document := { page_content := "법령 본문", metadata := [("id", .str "w")] }

/-- Case-law fixture chunks: five ranked candidates over exactly two
distinct case numbers (the claimed C6 scenario). -/
def cd1 : Document :=
  { page_content := "조각 1", metadata := [("chunk_id", .str "c1"), ("case_no", .str "2020다100")] }

/-- Second chunk of the first case. -/
def cd2 : Document :=
  { page_content := "조각 2", metadata := [("chunk_id", .str "c2"), ("case_no", .str "2020다100")] }

/-- First chunk of the second case. -/
def cd3 : Document :=
  { page_content := "조각 3", metadata := [("chunk_id", .str "c3"), ("case_no", .str "2019나200")] }

/-- Second chunk of the second case. -/
def cd4 : Document :=
  { page_content := "조각 4", metadata := [("chunk_id", .str "c4"), ("case_no", .str "2019나200")] }

/-- A further chunk of the first case. -/
def cd5 : Document :=
  { page_content := "조각 5", metadata := [("chunk_id", .str "c5"), ("case_no", .str "2020다100")] }

/-- The five ranked case candidates of the C6 scenario. -/
def caseFixtures : List Document := [cd1, cd2, cd3, cd4, cd5]

/-- Configuration asking for two expanded cases. -/
def cfgC6 : RAGConfig := { case_expand_top_n := some 2 }

/-- The chunk returned by the C6 environment's case full-text search:
non-empty content for every case number. -/
def caseChunk (cn : String) : Document :=
  { page_content := "전문 " ++ cn, metadata := [("chunk_id", .str "k1")] }

/-- See `caseChunk`: the fetch succeeds with that single chunk. -/
def EC6 : Externals := { Erev with caseSearch := fun cn _ => .ok [caseChunk cn] }

/-! ### Helper lemmas about the embedded dict / sort primitives -/

/-- Looking up a key produced by mapping a function over a key list. -/
theorem lookup_map_self {α : Type} (f : String → α) (l : List String) (k : String) :
    (l.map (fun id => (id, f id))).lookup k = if k ∈ l then some (f k) else none := by
  induction l with
  | nil => simp
  | cons a l ih =>
    by_cases h : k = a
    · subst h; simp [List.lookup]
    · simp only [List.map_cons, List.lookup, beq_eq_false_iff_ne.mpr h, ih, List.mem_cons]
      simp [h]

/-- Membership in a stable insertion. -/
theorem mem_insertSorted {α : Type} (lt : α → α → Bool) (x y : α) (l : List α) :
    y ∈ insertSorted lt x l ↔ y = x ∨ y ∈ l := by
  induction l with
  | nil => simp [insertSorted]
  | cons a l ih =>
    cases hx : lt x a with
    | true => simp [insertSorted, hx, List.mem_cons]
    | false =>
      simp [insertSorted, hx, List.mem_cons, ih]
      tauto

/-- Stable insertion preserves sortedness (`lt b a = false` along the
list) for an asymmetric, transitive comparator. -/
theorem pairwise_insertSorted {α : Type} (lt : α → α → Bool)
    (hasym : ∀ a b, lt a b = true → lt b a = false)
    (htrans : ∀ a b c, lt a b = true → lt b c = true → lt a c = true)
    (x : α) (l : List α) (h : l.Pairwise (fun a b => lt b a = false)) :
    (insertSorted lt x l).Pairwise (fun a b => lt b a = false) := by
  induction l with
  | nil => simp [insertSorted]
  | cons y ys ih =>
    rcases List.pairwise_cons.mp h with ⟨hy, hys⟩
    by_cases hlt : lt x y
    · simp only [insertSorted, hlt, if_true]
      refine List.pairwise_cons.mpr ⟨?_, h⟩
      intro z hz
      rcases List.mem_cons.mp hz with hz | hz
      · subst hz; exact hasym _ _ hlt
      · cases hzx : lt z x with
        | false => rfl
        | true =>
          have h1 : lt z y = true := htrans _ _ _ hzx hlt
          rw [hy z hz] at h1
          exact Bool.noConfusion h1
    · simp only [insertSorted, hlt, if_false]
      refine List.pairwise_cons.mpr ⟨?_, ih hys⟩
      intro z hz
      rcases (mem_insertSorted lt x z ys).mp hz with hz | hz
      · subst hz
        cases hzy : lt z y with
        | false => rfl
        | true => exact absurd hzy hlt
      · exact hy z hz

/-- `stableSortBy` produces a list sorted for the comparator (every
earlier element compares no-worse than every later one). -/
theorem pairwise_stableSortBy {α : Type} (lt : α → α → Bool)
    (hasym : ∀ a b, lt a b = true → lt b a = false)
    (htrans : ∀ a b c, lt a b = true → lt b c = true → lt a c = true)
    (l : List α) :
    (stableSortBy lt l).Pairwise (fun a b => lt b a = false) := by
  have key : ∀ (l acc : List α), acc.Pairwise (fun a b => lt b a = false) →
      (l.foldl (fun acc x => insertSorted lt x acc) acc).Pairwise (fun a b => lt b a = false) := by
    intro l
    induction l with
    | nil => intro acc h; simpa using h
    | cons x xs ih =>
      intro acc h
      exact ih _ (pairwise_insertSorted lt hasym htrans x acc h)
  exact key l [] (by simp)

/-! ### Claims about the fusion score maps -/

/-- C9: reciprocal rank fusion of dense ranks `{A:1, B:2}` and sparse
ranks `{A:2, B:1}` with equal weights gives A and B identical fused
scores; each present side contributes `w/(k+rank)`, an absent side `0`. -/
theorem rrf_equal_weights_symmetric (k : Nat) (w : ℚ) :
    ScoreFusion.rrfScore [("A", (1 : Int)), ("B", 2)] [("A", 2), ("B", 1)] k w w "A"
      = ScoreFusion.rrfScore [("A", (1 : Int)), ("B", 2)] [("A", 2), ("B", 1)] k w w "B" := by
  simp [ScoreFusion.rrfScore, List.lookup]
  ring

/-- C10: in `rank_sum` over `n ≥ 2` distinct documents, a document present
only on the dense side scores `w_dense` times the unit value of its dense
rank, because the missing side is assigned the default rank `n`, whose
unit value `1 - (n-1)/(n-1)` is exactly `0`. -/
theorem rank_sum_missing_side (allDocs : List String)
    (denseRanks sparseRanks : List (String × Int)) (wDense wSparse : ℚ)
    (d : String) (r : Int)
    (hn : 2 ≤ allDocs.length) (hnd : allDocs.Nodup) (hmem : d ∈ allDocs)
    (hd : denseRanks.lookup d = some r) (hs : sparseRanks.lookup d = none) :
    (ScoreFusion.rankSum allDocs denseRanks sparseRanks wDense wSparse).lookup d
        = some (wDense * (1 - ((r : ℚ) - 1) / ((allDocs.length : ℚ) - 1)))
      ∧ ScoreFusion.toUnit allDocs.length (allDocs.length : Int) = 0 := by
  have hq : (2 : ℚ) ≤ (allDocs.length : ℚ) := by exact_mod_cast hn
  have hne : ((allDocs.length : ℚ) - 1) ≠ 0 := by linarith
  have hunit : ScoreFusion.toUnit allDocs.length (allDocs.length : Int) = 0 := by
    simp only [ScoreFusion.toUnit]
    push_cast
    rw [div_self hne]
    ring
  refine ⟨?_, hunit⟩
  have hlen : ¬ allDocs.length ≤ 1 := by omega
  simp only [ScoreFusion.rankSum, if_neg hlen]
  rw [lookup_map_self, if_pos hmem, hd, hs]
  simp only [Option.getD_some, Option.getD_none, ScoreFusion.toUnit, Option.some_inj]
  push_cast
  field_simp

/-- Witness for `rank_sum_missing_side`: two documents, "A" ranked 1 on
the dense side only, weights 0.6/0.4. -/
theorem rank_sum_missing_side_witness :
    (ScoreFusion.rankSum ["A", "B"] [("A", 1)] [("B", 1)] (3/5) (2/5)).lookup "A"
      = some ((3/5 : ℚ) * (1 - ((1 : ℚ) - 1) / (((["A", "B"] : List String).length : ℚ) - 1))) :=
  (rank_sum_missing_side ["A", "B"] [("A", 1)] [("B", 1)] (3/5) (2/5) "A" 1
    (by decide) (by decide) (by decide) rfl rfl).1

/-! ### Claims about construction-time validation -/

/-- C8 counterexample: constructing `RAGConfig` with
`search_multiplier = 0` (all other fields default) does NOT raise — the
claimed "multipliers ≥ 1" check does not exist in `__post_init__`. -/
theorem ragconfig_multiplier_zero_accepted :
    ragConfigValidate { search_multiplier := 0 } = .ok { search_multiplier := 0 } := by
  simp only [ragConfigValidate]
  norm_num

/-- C8 (amended): construction succeeds iff `generation_temperature`
lies in `[0,2]`, `rerank_threshold` lies in `[0,1]`, and `hybrid_method`
is one of `rrf`, `weighted`, `rank_sum`; no other field (in particular no
multiplier and not `normalize_temperature`) is validated. -/
theorem ragconfig_validate_characterization (cfg : RAGConfig) :
    exOk (ragConfigValidate cfg) = true
      ↔ (0 ≤ cfg.generation_temperature ∧ cfg.generation_temperature ≤ 2
          ∧ 0 ≤ cfg.rerank_threshold ∧ cfg.rerank_threshold ≤ 1
          ∧ cfg.hybrid_method ∈ (["rrf", "weighted", "rank_sum"] : List String)) := by
  unfold ragConfigValidate exOk
  split_ifs with h1 h2 h3 <;> simp_all

/-! ### C3: BM25 on a single-document corpus -/

/-- C3: for a one-document corpus and a query of a single token occurring
exactly once in the document, the builtin BM25 score is
`idf(t)·(k1+1)/(1+k1)` with `idf(t) = log(1 + (N - df + 0.5)/(df + 0.5))`,
`N = df = 1`; the length normalization is `1` because `dl = avgdl`. -/
theorem bm25_single_doc_score (log : ℚ → ℚ) (k1 b : ℚ) (t : String)
    (doc : List String) (h : doc.count t = 1) :
    bm25ScoresBuiltin log [t] [doc] k1 b
      = [log (1 + ((1 : ℚ) - 1 + 1/2) / (1 + 1/2)) * ((k1 + 1) / (1 + k1))] := by
  have hmem : t ∈ doc := by
    have h0 : 0 < doc.count t := by omega
    exact List.count_pos_iff.mp h0
  have hlen : 1 ≤ doc.length := List.length_pos.mpr (List.ne_nil_of_mem hmem)
  have hlq : (0 : ℚ) < (doc.length : ℚ) := by exact_mod_cast hlen
  have hne2 : doc ≠ [] := List.ne_nil_of_mem hmem
  simp only [bm25ScoresBuiltin]
  norm_num
  have he : ([t] : List String).eraseDups = [t] := rfl
  rw [he]
  simp only [List.foldl_cons, List.foldl_nil]
  simp only [h, hmem, if_neg hne2, List.filter_cons, List.filter_nil, decide_True, if_true,
    List.length_cons, List.length_nil, List.count_cons_self, List.count_nil, Nat.cast_one]
  rw [div_self (ne_of_gt hlq)]
  have hnorm : (1 : ℚ) - b + b * 1 = 1 := by ring
  rw [hnorm]
  by_cases hk : (1 : ℚ) + k1 * 1 = 0
  · rw [if_pos hk]
    have hk1 : k1 = -1 := by linarith
    subst hk1
    norm_num
  · rw [if_neg hk]
    norm_num

/-- Witness for `bm25_single_doc_score`: identity `log`, default
`k1 = 1.5`, `b = 0.75`, document `["a", "b"]`, query token `"a"`. -/
theorem bm25_single_doc_score_witness :
    bm25ScoresBuiltin (fun q => q) ["a"] [["a", "b"]] (3/2) (3/4)
      = [(fun q => q) (1 + ((1 : ℚ) - 1 + 1/2) / (1 + 1/2)) * (((3/2 : ℚ) + 1) / (1 + 3/2))] :=
  bm25_single_doc_score (fun q => q) (3/2) (3/4) "a" ["a", "b"] (by decide)

/-! ### C7: context hierarchy tiers -/

/-- C7: a document goes to Tier 1 exactly when its parsed priority is in
{1,2,4,5}, to Tier 2 exactly when it is in {3,6,7,8,11}, and to Tier 3
otherwise (including 9, and missing/unparseable priorities, which
`_safe_int` defaults to 99); the rendered output joins only the non-empty
tiers, so an empty tier contributes neither its header nor any text. -/
theorem context_hierarchy_tiers (docs : List Document) :
    (contextSections docs).1
        = (docs.filter (fun d => decide (priorityOf d ∈ ([1, 2, 4, 5] : List Int)))).map entryOf
      ∧ (contextSections docs).2.1
          = (docs.filter (fun d => decide (priorityOf d ∈ ([3, 6, 7, 8, 11] : List Int)))).map entryOf
      ∧ (contextSections docs).2.2
          = (docs.filter (fun d => decide (priorityOf d ∉ ([1, 2, 4, 5] : List Int)
              ∧ priorityOf d ∉ ([3, 6, 7, 8, 11] : List Int)))).map entryOf
      ∧ formatContextWithHierarchy docs
          = pyStrip (String.intercalate "\n\n"
              ((if (contextSections docs).1 = [] then []
                else ["## [SECTION 1: 핵심 법령 (최우선 법적 근거)]\n"
                      ++ String.intercalate "\n\n" (contextSections docs).1]) ++
               (if (contextSections docs).2.1 = [] then []
                else ["## [SECTION 2: 관련 규정 및 절차 (세부 기준)]\n"
                      ++ String.intercalate "\n\n" (contextSections docs).2.1]) ++
               (if (contextSections docs).2.2 = [] then []
                else ["## [SECTION 3: 판례 및 해석 사례 (적용 예시)]\n"
                      ++ String.intercalate "\n\n" (contextSections docs).2.2]))) := by
  have key : ∀ ds : List Document,
      contextSections ds
        = ((ds.filter (fun d => decide (priorityOf d ∈ ([1, 2, 4, 5] : List Int)))).map entryOf,
           (ds.filter (fun d => decide (priorityOf d ∈ ([3, 6, 7, 8, 11] : List Int)))).map entryOf,
           (ds.filter (fun d => decide (priorityOf d ∉ ([1, 2, 4, 5] : List Int)
               ∧ priorityOf d ∉ ([3, 6, 7, 8, 11] : List Int)))).map entryOf) := by
    intro ds
    induction ds with
    | nil => rfl
    | cons d ds ih =>
      by_cases h1 : priorityOf d ∈ ([1, 2, 4, 5] : List Int)
      · have h2 : priorityOf d ∉ ([3, 6, 7, 8, 11] : List Int) := by
          have h1x : priorityOf d = 1 ∨ priorityOf d = 2 ∨ priorityOf d = 4
              ∨ priorityOf d = 5 := by simpa using h1
          simp only [List.mem_cons, List.not_mem_nil, or_false]
          omega
        simp only [contextSections, List.filter_cons, decide_eq_true_eq, ih, h1, h2,
          not_true, not_false_eq_true, false_and, and_true, true_and, and_false,
          if_true, if_false, List.map_cons, eq_self_iff_true]
      · by_cases h2 : priorityOf d ∈ ([3, 6, 7, 8, 11] : List Int)
        · simp only [contextSections, List.filter_cons, decide_eq_true_eq, ih, h1, h2,
            not_true, not_false_eq_true, false_and, and_true, true_and, and_false,
            if_true, if_false, List.map_cons, eq_self_iff_true]
        · simp only [contextSections, List.filter_cons, decide_eq_true_eq, ih, h1, h2,
            not_true, not_false_eq_true, false_and, and_true, true_and, and_false,
            if_true, if_false, List.map_cons, eq_self_iff_true, iff_false]
  exact ⟨by rw [key], by rw [key], by rw [key], rfl⟩

/-! ### Association-list update lemmas -/

/-- Lookup after a positional update of an existing key. -/
theorem lookup_map_update {α : Type} (m : List (String × α)) (k : String) (v : α) :
    (m.map (fun p => if p.1 = k then (k, v) else p)).lookup k
      = if m.any (fun p => p.1 = k) then some v else none := by
  induction m with
  | nil => rfl
  | cons p ps ih =>
    obtain ⟨a, b⟩ := p
    by_cases hp : a = k
    · subst hp
      simp [List.lookup_cons, List.any_cons]
    · have hbk : (k == a) = false := beq_eq_false_iff_ne.mpr (Ne.symm hp)
      simp only [List.lookup_cons, List.map_cons, if_neg hp, hbk, List.any_cons, ih]
      by_cases hq : (ps.any fun p => decide (p.1 = k)) = true
      · rw [if_pos hq, if_pos (by rw [hq, Bool.or_true])]
      · rw [if_neg hq, if_neg ?hh]
        case hh =>
          intro hc
          cases hd : decide (a = k) with
          | true => exact hp (of_decide_eq_true hd)
          | false =>
            rw [hd, Bool.false_or] at hc
            exact hq hc

/-- A key-respecting update does not disturb lookups of other keys. -/
theorem lookup_map_update_ne {α : Type} (m : List (String × α)) (k k2 : String) (v : α)
    (h : k ≠ k2) :
    (m.map (fun p => if p.1 = k2 then (k2, v) else p)).lookup k = m.lookup k := by
  induction m with
  | nil => rfl
  | cons p ps ih =>
    obtain ⟨a, b⟩ := p
    by_cases hp : a = k2
    · subst hp
      simp [List.lookup_cons, beq_eq_false_iff_ne.mpr h, ih]
    · cases hkp : (k == a) <;> simp [List.lookup_cons, hp, hkp, ih]

/-- A list with no matching key has no lookup result. -/
theorem lookup_of_any_false {α : Type} (m : List (String × α)) (k : String)
    (h : m.any (fun p => p.1 = k) = false) : m.lookup k = none := by
  induction m with
  | nil => rfl
  | cons p ps ih =>
    obtain ⟨a, b⟩ := p
    simp only [List.any_cons, Bool.or_eq_false_iff, decide_eq_false_iff_not] at h
    have hbk : (k == a) = false := beq_eq_false_iff_ne.mpr (fun he => h.1 he.symm)
    simp [List.lookup_cons, hbk, ih h.2]

/-- `assocSet` stores the assigned value. -/
theorem lookup_assocSet_self {α : Type} (m : List (String × α)) (k : String) (v : α) :
    (assocSet m k v).lookup k = some v := by
  unfold assocSet
  cases ha : m.any (fun p => p.1 = k) with
  | true => simp [lookup_map_update, ha]
  | false =>
    simp only [Bool.false_eq_true, if_false]
    rw [List.lookup_append, lookup_of_any_false m k ha]
    simp [List.lookup_cons]

/-- `assocSet` leaves other keys untouched. -/
theorem lookup_assocSet_ne {α : Type} (m : List (String × α)) (k k2 : String) (v : α)
    (h : k ≠ k2) : (assocSet m k2 v).lookup k = m.lookup k := by
  unfold assocSet
  cases ha : m.any (fun p => p.1 = k2) with
  | true => simp [lookup_map_update_ne m k k2 v h]
  | false =>
    simp only [Bool.false_eq_true, if_false]
    rw [List.lookup_append]
    have : List.lookup k [(k2, v)] = none := by
      simp [List.lookup_cons, beq_eq_false_iff_ne.mpr h]
    rw [this]
    cases m.lookup k <;> rfl

/-! ### C1: ordering produced by the hybrid-fusion reorder -/

/-- Every document emitted by the reorder loop of `_hybrid_fusion`
carries the fused score of one of the ids it walked. -/
theorem hybridScoreOf_reorderFused (docMap : List (String × Document))
    (fused : List (String × ℚ)) (ids : List String) (r : Nat) (x : Document)
    (hx : x ∈ reorderFused docMap fused ids r) :
    ∃ id ∈ ids, hybridScoreOf x = lookupQ fused id := by
  induction ids generalizing r with
  | nil => simp [reorderFused] at hx
  | cons i ids ih =>
    cases hm : docMap.lookup i with
    | some d =>
      simp only [reorderFused, hm] at hx
      rcases List.mem_cons.mp hx with hh | hh
      · refine ⟨i, List.mem_cons_self i ids, ?_⟩
        subst hh
        simp only [hybridScoreOf]
        rw [lookup_assocSet_ne _ _ _ _ (by decide), lookup_assocSet_self]
      · obtain ⟨id, hid, he⟩ := ih (r + 1) hh
        exact ⟨id, List.mem_cons_of_mem _ hid, he⟩
    | none =>
      simp only [reorderFused, hm] at hx
      obtain ⟨id, hid, he⟩ := ih (r + 1) hx
      exact ⟨id, List.mem_cons_of_mem _ hid, he⟩

/-- If the walked id list is sorted by descending fused score, the
reordered documents are sorted by descending stored `__hybrid_score`. -/
theorem reorderFused_sorted (docMap : List (String × Document))
    (fused : List (String × ℚ)) (ids : List String) (r : Nat)
    (hs : ids.Pairwise (fun a b => lookupQ fused b ≤ lookupQ fused a)) :
    (reorderFused docMap fused ids r).Pairwise
      (fun x y => hybridScoreOf y ≤ hybridScoreOf x) := by
  induction ids generalizing r with
  | nil => simp [reorderFused]
  | cons i ids ih =>
    rcases List.pairwise_cons.mp hs with ⟨hi, hrest⟩
    cases hm : docMap.lookup i with
    | some d =>
      simp only [reorderFused, hm]
      refine List.pairwise_cons.mpr ⟨?_, ih (r + 1) hrest⟩
      intro y hy
      obtain ⟨id, hid, he⟩ := hybridScoreOf_reorderFused docMap fused ids (r + 1) y hy
      have hx0 : hybridScoreOf
          { d with
            metadata := assocSet (assocSet d.metadata "__hybrid_score" (.rat (lookupQ fused i)))
              "__hybrid_rank" (.int (r : Int)) } = lookupQ fused i := by
        simp only [hybridScoreOf]
        rw [lookup_assocSet_ne _ _ _ _ (by decide), lookup_assocSet_self]
      rw [he, hx0]
      exact hi id hid
    | none =>
      simp only [reorderFused, hm]
      exact ih (r + 1) hrest

/-- The reorder step emits documents sorted by descending stored fused
score, for every fused score map and document map. -/
theorem fusedReorder_sorted (docMap : List (String × Document))
    (fused : List (String × ℚ)) :
    (fusedReorder docMap fused).Pairwise
      (fun x y => hybridScoreOf y ≤ hybridScoreOf x) := by
  apply reorderFused_sorted
  have hp := pairwise_stableSortBy
    (fun a b => decide (lookupQ fused b < lookupQ fused a))
    (fun a b h => decide_eq_false (lt_asymm (of_decide_eq_true h)))
    (fun a b c h1 h2 => decide_eq_true (lt_trans (of_decide_eq_true h2) (of_decide_eq_true h1)))
    (fused.map Prod.fst)
  exact hp.imp (fun hab => not_lt.mp (of_decide_eq_false hab))

/-- C1 (amended): for every environment (hence every hash seed), query
and input list, when hybrid fusion runs (enabled, ≥ 2 deduplicated
documents) its output is sorted by the fused score, descending; ties
follow the hash-dependent iteration order of the fused dict's key set,
which is NOT constrained to be the original input order. -/
theorem hybrid_fusion_sorted_desc (E : Externals) (cfg : RAGConfig) (query : String)
    (docs : List Document) (h1 : cfg.enable_hybrid = true)
    (h2 : 2 ≤ (dedupeDocs cfg.dedupe_key_fields docs).length) :
    (hybridFusion E cfg query docs).Pairwise
      (fun x y => hybridScoreOf y ≤ hybridScoreOf x) := by
  have hne : docs ≠ [] := by
    intro he
    rw [he] at h2
    simp [dedupeDocs, dedupeDocsAux] at h2
  have hguard : ¬(cfg.enable_hybrid = false ∨ docs = []) := by
    rintro (hc | hc)
    · rw [h1] at hc; exact Bool.noConfusion hc
    · exact hne hc
  have hlen : ¬(dedupeDocs cfg.dedupe_key_fields docs).length ≤ 1 := by omega
  unfold hybridFusion
  rw [if_neg hguard, if_neg hlen]
  exact fusedReorder_sorted _ _

/-- C1 counterexample: with equal fusion weights, documents A (dense rank
2) and B (dense rank 1) tie on the fused RRF score, the input id order is
[A, B], yet under the reversed set-iteration order (`Erev`, one possible
hash seed) `_hybrid_fusion` returns [B, A] — the tie is NOT broken by the
original input order — while under the identity set-iteration order
(`Eid`, another possible hash seed) the same program input yields [A, B]:
two runs on identical inputs can produce different output orderings. -/
theorem hybrid_fusion_tie_counterexample :
    ([dA, dB].map (getDocId cfg1.dedupe_key_fields) = ["id:A", "id:B"]
      ∧ (hybridFusion Erev cfg1 "q" [dA, dB]).map (getDocId cfg1.dedupe_key_fields)
          = ["id:B", "id:A"])
    ∧ (hybridFusion Eid cfg1 "q" [dA, dB]).map (getDocId cfg1.dedupe_key_fields)
        = ["id:A", "id:B"]
    ∧ hybridScoreOf ((hybridFusion Erev cfg1 "q" [dA, dB]).getD 0 emptyDoc)
        = hybridScoreOf ((hybridFusion Erev cfg1 "q" [dA, dB]).getD 1 emptyDoc) := by
  decide

/-- Witness for `hybrid_fusion_sorted_desc` at the concrete two-document
input. -/
theorem hybrid_fusion_sorted_desc_witness :
    (hybridFusion Erev cfg1 "q" [dA, dB]).Pairwise
      (fun x y => hybridScoreOf y ≤ hybridScoreOf x) :=
  hybrid_fusion_sorted_desc Erev cfg1 "q" [dA, dB] rfl (by decide)

/-! ### Lemmas about selection and case expansion -/

/-- `pickByIndex` succeeds and is plain indexing when all indices are in
range. -/
theorem pickByIndex_eq_map (combined : List Document) (l : List (Nat × ℚ))
    (h : ∀ p ∈ l, p.1 < combined.length) :
    pickByIndex combined l = .ok (l.map (fun p => combined.getD p.1 emptyDoc)) := by
  induction l with
  | nil => rfl
  | cons p ps ih =>
    have hp := h p (List.mem_cons_self p ps)
    have hsome : combined[p.1]? = some combined[p.1] := List.getElem?_eq_getElem hp
    simp only [pickByIndex, hsome, ih (fun q hq => h q (List.mem_cons_of_mem _ hq)),
      Except.map, List.map_cons]
    rw [List.getD_eq_getElem?_getD, hsome]
    rfl

/-- Every document produced by the case-selection loop has a truthy
`case_no`. -/
theorem truthyCaseNo_of_mem_chooseCasesAux (topN : Nat) (cs : List Document)
    (seen : List MetaVal) (cnt : Nat) (x : Document)
    (hx : x ∈ chooseCasesAux topN cs seen cnt) : ∃ v, truthyCaseNo x = some v := by
  induction cs generalizing seen cnt with
  | nil => simp [chooseCasesAux] at hx
  | cons d ds ih =>
    cases hv : truthyCaseNo d with
    | some v =>
      simp only [chooseCasesAux, hv] at hx
      by_cases hs : v ∈ seen
      · rw [if_pos hs] at hx
        exact ih _ _ hx
      · rw [if_neg hs] at hx
        by_cases ht : topN ≤ cnt + 1
        · rw [if_pos ht] at hx
          rcases List.mem_cons.mp hx with hh | hh
          · subst hh; exact ⟨v, hv⟩
          · simp at hh
        · rw [if_neg ht] at hx
          rcases List.mem_cons.mp hx with hh | hh
          · subst hh; exact ⟨v, hv⟩
          · exact ih _ _ hh
    | none =>
      simp only [chooseCasesAux, hv] at hx
      exact ih _ _ hx

/-- Length of the case-selection loop's output: it picks
`min (topN - cnt)` of the remaining new distinct case numbers (the break
fires after appending, so the bound is reached exactly). -/
theorem chooseCasesAux_length (topN : Nat) (cs : List Document) :
    ∀ (seen : List MetaVal) (cnt : Nat), cnt < topN →
      (chooseCasesAux topN cs seen cnt).length = min (topN - cnt) (newDistinct cs seen) := by
  induction cs with
  | nil =>
    intro seen cnt h
    simp [chooseCasesAux, newDistinct]
  | cons d ds ih =>
    intro seen cnt h
    cases hv : truthyCaseNo d with
    | some v =>
      simp only [chooseCasesAux, newDistinct, hv]
      by_cases hs : v ∈ seen
      · rw [if_pos hs, if_pos hs]
        exact ih seen cnt h
      · rw [if_neg hs, if_neg hs]
        by_cases ht : topN ≤ cnt + 1
        · rw [if_pos ht]
          simp only [List.length_cons, List.length_nil]
          omega
        · rw [if_neg ht]
          simp only [List.length_cons, ih (v :: seen) (cnt + 1) (by omega)]
          omega
    | none =>
      simp only [chooseCasesAux, newDistinct, hv]
      exact ih seen cnt h

/-- The expansion loop: when every chosen document has a truthy `case_no`
and every fetch is non-empty, each document is replaced (none dropped,
none kept as the original chunk), carries `__expanded = True`, and its
content is the `"[판례 전문: {title}]"` banner followed by the fetched
full text. -/
theorem expandCases_spec (E : Externals) (cfg : RAGConfig) (l : List Document)
    (h0 : ∀ d ∈ l, ∃ v, truthyCaseNo d = some v)
    (hf : ∀ d ∈ l, ∀ v, truthyCaseNo d = some v →
        getFullCaseContext E cfg (metaValStr v) ≠ "") :
    (expandCases E cfg l).length = l.length
      ∧ ∀ x ∈ expandCases E cfg l,
          x.metadata.lookup "__expanded" = some (.bool true)
          ∧ ∃ t body, x.page_content = "[판례 전문: " ++ t ++ "]\n" ++ body ∧ body ≠ "" := by
  induction l with
  | nil => exact ⟨rfl, by simp [expandCases]⟩
  | cons d ds ih =>
    obtain ⟨v, hv⟩ := h0 d (List.mem_cons_self d ds)
    have hft := hf d (List.mem_cons_self d ds) v hv
    have hih := ih (fun x hx => h0 x (List.mem_cons_of_mem _ hx))
      (fun x hx => hf x (List.mem_cons_of_mem _ hx))
    simp only [expandCases, hv]
    rw [if_neg hft]
    refine ⟨by simp [hih.1], ?_⟩
    intro x hx
    rcases List.mem_cons.mp hx with hh | hh
    · subst hh
      refine ⟨lookup_assocSet_self _ _ _, ?_⟩
      exact ⟨metaValStr (caseTitle d v), getFullCaseContext E cfg (metaValStr v), rfl, hft⟩
    · exact hih.2 x hh

/-! ### C2, C4, C5: failure containment in the retrieval pipeline -/

/-- C2 counterexample: a vector-search exception CAN escape
`triple_hybrid_retrieval` — when `similarity_search_with_score` raises,
`_search_with_dense_rank` retries with `similarity_search` outside any
`try`, so a failure of that fallback call propagates to the caller. -/
theorem search_failure_escapes :
    tripleHybridRetrieval Erev { } "보증금을 돌려주지 않아요" = .error (.ext "no") := by
  rfl

/-- C2 (amended): exceptions of the rerank and case-fetch collaborators
never escape `triple_hybrid_retrieval`; a vector-search exception escapes
only when both the scored call and its unscored fallback fail.  Formally:
if for every index one of the two search calls succeeds and rerank
results (when any) index into the capped set, the pipeline returns
normally whatever the rerank and case-fetch collaborators do. -/
theorem external_failures_contained (E : Externals) (cfg : RAGConfig) (query : String)
    (hsearch : ∀ ix q k,
        exOk (E.searchWithScore ix q k) = true ∨ exOk (E.searchPlain ix q k) = true)
    (hidx : ∀ q ts r, E.rerank q ts = .ok r → ∀ p ∈ r, p.1 < ts.length) :
    exOk (tripleHybridRetrieval E cfg query) = true := by
  have hsw : ∀ ix q k, ∃ ds, searchWithDenseRank E ix q k = .ok ds := by
    intro ix q k
    unfold searchWithDenseRank
    cases hc : E.searchWithScore ix q k with
    | ok pairs => exact ⟨_, rfl⟩
    | error e =>
      rcases hsearch ix q k with h | h
      · rw [hc] at h
        exact absurd h (by simp [exOk])
      · cases hp : E.searchPlain ix q k with
        | ok ds => exact ⟨_, rfl⟩
        | error e2 =>
          rw [hp] at h
          exact absurd h (by simp [exOk])
  obtain ⟨l, hl⟩ := hsw .law query (cfg.k_law * cfg.search_multiplier)
  obtain ⟨r, hr⟩ := hsw .rule query (cfg.k_rule * cfg.search_multiplier)
  obtain ⟨c, hc⟩ := hsw .caseIx query cfg.case_candidate_k
  have hstage : searchStage E cfg query
      = .ok (attachSource l "law", attachSource r "rule", attachSource c "case") := by
    unfold searchStage
    rw [hl, hr, hc]
    rfl
  unfold tripleHybridRetrieval
  rw [hstage]
  simp only [bind, Except.bind]
  set t := fusionStage E cfg query
    (attachSource l "law", attachSource r "rule", attachSource c "case") with ht
  set combined := capForRerank cfg t.1 t.2.1 t.2.2 with hcombined
  set texts := combined.map (fun d => truncateStr d.page_content cfg.rerank_doc_max_chars)
    with htexts
  have hsel : ∀ ropt : Option (List (Nat × ℚ)),
      (∀ rr, ropt = some rr → ∀ p ∈ rr, p.1 < combined.length) →
      ∃ sel, selectDocs cfg combined ropt = .ok sel := by
    intro ropt hro
    cases ropt with
    | none => exact ⟨combined, rfl⟩
    | some rr =>
      by_cases hemp : rr = []
      · subst hemp
        exact ⟨combined, rfl⟩
      · have hin := hro rr rfl
        simp only [selectDocs, if_neg hemp]
        by_cases hfe : rr.filter (fun p => decide (cfg.rerank_threshold ≤ p.2)) = []
        · rw [if_pos hfe]
          exact ⟨_, pickByIndex_eq_map combined _ (fun p hp => hin p (List.take_subset _ _ hp))⟩
        · rw [if_neg hfe]
          exact ⟨_, pickByIndex_eq_map combined _ (fun p hp => hin p (List.mem_of_mem_filter hp))⟩
  have hro : ∀ rr, (if cfg.enable_rerank then (E.rerank query texts).toOption else none)
      = some rr → ∀ p ∈ rr, p.1 < combined.length := by
    intro rr hrr2 p hp
    by_cases hER : cfg.enable_rerank
    · rw [if_pos hER] at hrr2
      cases hR : E.rerank query texts with
      | error e =>
        rw [hR] at hrr2
        simp [Except.toOption] at hrr2
      | ok rr2 =>
        rw [hR] at hrr2
        simp only [Except.toOption, Option.some_inj] at hrr2
        subst hrr2
        have hp2 := hidx query texts rr2 hR p hp
        have hlen : texts.length = combined.length := List.length_map _ _
        omega
    · rw [if_neg hER] at hrr2
      exact Option.noConfusion hrr2
  obtain ⟨sel, hsel2⟩ := hsel _ hro
  rw [hsel2]
  rfl

/-- Witness for `external_failures_contained`: scored search fails, plain
search succeeds, rerank and case fetch always raise — the pipeline still
returns normally. -/
theorem external_failures_contained_witness :
    exOk (tripleHybridRetrieval Efallback { } "대항력") = true :=
  external_failures_contained Efallback { } "대항력"
    (fun _ _ _ => Or.inr rfl)
    (fun _ _ _ h => Except.noConfusion h)

/-- C4: if the rerank collaborator raises on every input,
`triple_hybrid_retrieval` does not raise: it continues with exactly the
pre-rerank deduplicated/capped document set (`_cap_for_rerank` of the
fused per-index lists) as the selected documents. -/
theorem rerank_failure_keeps_candidates (E : Externals) (cfg : RAGConfig) (query : String)
    (e : Err) (t : List Document × List Document × List Document)
    (hr : ∀ q2 ts, E.rerank q2 ts = .error e)
    (hs : searchStage E cfg query = .ok t) :
    tripleHybridRetrieval E cfg query
      = .ok (finishStage E cfg (capForRerank cfg (fusionStage E cfg query t).1
          (fusionStage E cfg query t).2.1 (fusionStage E cfg query t).2.2)) := by
  unfold tripleHybridRetrieval
  rw [hs]
  simp only [bind, Except.bind, hr]
  cases cfg.enable_rerank <;> simp [selectDocs, Except.toOption]

/-- Witness for `rerank_failure_keeps_candidates`: concrete environment
whose rerank always raises. -/
theorem rerank_failure_keeps_candidates_witness :
    tripleHybridRetrieval EsearchOk { } "임대차"
      = .ok (finishStage EsearchOk { } (capForRerank { }
          (fusionStage EsearchOk { } "임대차" ([], [], [])).1
          (fusionStage EsearchOk { } "임대차" ([], [], [])).2.1
          (fusionStage EsearchOk { } "임대차" ([], [], [])).2.2)) :=
  rerank_failure_keeps_candidates EsearchOk { } "임대차" (.ext "no") ([], [], [])
    (fun _ _ => rfl) rfl

/-- C5: when rerank succeeds (non-empty results) but every relevance
score is below the threshold, the selection is not empty: the first
`min(k_law + k_rule + k_case, len(ranked))` reranked items are kept. -/
theorem rerank_threshold_fallback (cfg : RAGConfig) (combined : List Document)
    (r : List (Nat × ℚ)) (hne : r ≠ [])
    (hall : ∀ p ∈ r, p.2 < cfg.rerank_threshold)
    (hidx : ∀ p ∈ r, p.1 < combined.length)
    (hk : 1 ≤ cfg.k_law + cfg.k_rule + cfg.k_case) :
    selectDocs cfg combined (some r)
        = .ok ((r.take (min (cfg.k_law + cfg.k_rule + cfg.k_case) r.length)).map
            (fun p => combined.getD p.1 emptyDoc))
      ∧ (r.take (min (cfg.k_law + cfg.k_rule + cfg.k_case) r.length)).map
            (fun p => combined.getD p.1 emptyDoc) ≠ [] := by
  have hfe : r.filter (fun p => decide (cfg.rerank_threshold ≤ p.2)) = [] := by
    rw [List.filter_eq_nil_iff]
    intro p hp
    simpa using not_le.mpr (hall p hp)
  have hsel : selectDocs cfg combined (some r)
      = .ok ((r.take (min (cfg.k_law + cfg.k_rule + cfg.k_case) r.length)).map
          (fun p => combined.getD p.1 emptyDoc)) := by
    simp only [selectDocs, if_neg hne, hfe, if_pos rfl]
    exact pickByIndex_eq_map combined _ (fun p hp => hidx p (List.take_subset _ _ hp))
  refine ⟨hsel, ?_⟩
  have hlp : 0 < r.length := List.length_pos.mpr hne
  have hlt : 0 < ((r.take (min (cfg.k_law + cfg.k_rule + cfg.k_case) r.length)).length) := by
    rw [List.length_take]
    omega
  intro hcon
  rw [← List.length_eq_zero] at hcon
  rw [List.length_map] at hcon
  omega

/-- Witness for `rerank_threshold_fallback`: a single candidate whose
rerank score 0.1 is below the default threshold 0.2. -/
theorem rerank_threshold_fallback_witness :
    selectDocs { } [docW] (some [(0, 1/10)])
        = .ok (([(0, (1 : ℚ)/10)].take (min (RAGConfig.k_law { } + RAGConfig.k_rule { }
            + RAGConfig.k_case { }) [(0, (1 : ℚ)/10)].length)).map
            (fun p => [docW].getD p.1 emptyDoc))
      ∧ ([(0, (1 : ℚ)/10)].take (min (RAGConfig.k_law { } + RAGConfig.k_rule { }
            + RAGConfig.k_case { }) [(0, (1 : ℚ)/10)].length)).map
            (fun p => [docW].getD p.1 emptyDoc) ≠ [] :=
  rerank_threshold_fallback { } [docW] [(0, 1/10)] (by decide)
    (by intro p hp; simp at hp; rw [hp]; decide)
    (by intro p hp; simp at hp; rw [hp]; decide)
    (by decide)

/-! ### C6: two-stage case expansion -/

/-- C6: for 5 ranked case-law candidates referencing exactly 2 distinct
truthy `case_no` values, with `top_n = 2` and a non-empty full-text fetch
for each selected case, the expansion step yields exactly 2 documents,
each carrying `__expanded = True` and content `"[판례 전문: {title}]"`
followed (after a newline) by the non-empty fetched text; candidates with
a missing or already-seen `case_no` are skipped by the selection loop. -/
theorem case_expansion_two_distinct (E : Externals) (cfg : RAGConfig)
    (caseRanked : List Document)
    (hlen : caseRanked.length = 5)
    (htop : topNOf cfg = 2)
    (hdist : newDistinct caseRanked [] = 2)
    (hfetch : ∀ d ∈ chooseCases (topNOf cfg) caseRanked, ∀ v, truthyCaseNo d = some v →
        getFullCaseContext E cfg (metaValStr v) ≠ "") :
    (caseExpansion E cfg caseRanked).length = 2
      ∧ ∀ x ∈ caseExpansion E cfg caseRanked,
          x.metadata.lookup "__expanded" = some (.bool true)
          ∧ ∃ t body, x.page_content = "[판례 전문: " ++ t ++ "]\n" ++ body ∧ body ≠ "" := by
  have htpos : 0 < topNOf cfg := by omega
  have hch : (chooseCases (topNOf cfg) caseRanked).length = 2 := by
    unfold chooseCases
    rw [chooseCasesAux_length (topNOf cfg) caseRanked [] 0 htpos, hdist, htop]
    omega
  have h0 : ∀ d ∈ chooseCases (topNOf cfg) caseRanked, ∃ v, truthyCaseNo d = some v :=
    fun d hd => truthyCaseNo_of_mem_chooseCasesAux (topNOf cfg) caseRanked [] 0 d hd
  have hspec := expandCases_spec E cfg (chooseCases (topNOf cfg) caseRanked) h0 hfetch
  unfold caseExpansion
  exact ⟨by rw [hspec.1, hch], hspec.2⟩

/-- Witness for `case_expansion_two_distinct` on the five concrete
fixture chunks (case numbers 2020다100, 2019나200). -/
theorem case_expansion_two_distinct_witness :
    (caseExpansion EC6 cfgC6 caseFixtures).length = 2
      ∧ ∀ x ∈ caseExpansion EC6 cfgC6 caseFixtures,
          x.metadata.lookup "__expanded" = some (.bool true)
          ∧ ∃ t body, x.page_content = "[판례 전문: " ++ t ++ "]\n" ++ body ∧ body ≠ "" := by
  refine case_expansion_two_distinct EC6 cfgC6 caseFixtures rfl rfl (by decide) ?_
  have hcc : chooseCases (topNOf cfgC6) caseFixtures = [cd1, cd3] := by decide
  rw [hcc]
  intro d hd v hv
  rcases List.mem_cons.mp hd with h | h
  · subst h
    injection hv with hv2
    subst hv2
    decide
  · rcases List.mem_cons.mp h with h2 | h2
    · subst h2
      injection hv with hv2
      subst hv2
      decide
    · simp at h2

end RagSpec
